import Mathlib

/-!
# Required-provider block decoding

A shallow embedding of `decodeRequiredProvidersBlock`
(`terraform/configs/provider_requirements.go`) together with the parts of the
`hcl`, `cty` and `go-version` packages that the function consumes, and the
properties of the decoder stated in the specification.

The Go function ranges over a map. The order in which a Go `range` statement
visits the entries of a map is not specified, so the embedding takes that order
as an explicit argument (`rangeOrder`). A run-time abort (a Go panic) is an
explicit outcome.
-/

set_option autoImplicit false

/-! ## Package `hcl`: source ranges and diagnostics -/

namespace hcl

/-- Pos is a single position in a source file (`hcl.Pos`). -/
structure Pos where
  Line : Nat := 0
  Column : Nat := 0
  Byte : Nat := 0
  deriving DecidableEq, Repr

/-- Range is a contiguous span of a source file (`hcl.Range`); the default is
Go's zero value. -/
structure Range where
  Filename : String := ""
  Start : Pos := {}
  End : Pos := {}
  deriving DecidableEq, Repr

/-- DiagnosticSeverity is the severity of a diagnostic (`hcl.DiagError`,
`hcl.DiagWarning`). -/
inductive DiagnosticSeverity where
  | DiagError
  | DiagWarning
  deriving DecidableEq, Repr

/-- Diagnostic is one located, severity-tagged message (`hcl.Diagnostic`).
`Subject` is a pointer in Go, hence optional. -/
structure Diagnostic where
  Severity : DiagnosticSeverity
  Summary : String
  Detail : String
  Subject : Option Range := none
  deriving DecidableEq, Repr

/-- Diagnostics is a sequence of diagnostics (`hcl.Diagnostics`); a nil slice
is the empty list. -/
abbrev Diagnostics := List Diagnostic

end hcl

/-! ## Package `cty`: literal values and their types -/

namespace cty

/-- Modelled from the spec: the result of the Value Classifier collaborator
(package `cty`, whose sources are not part of the repository files at hand).
A value is a primitive scalar (`cty.String`, `cty.Number`, `cty.Bool`), a
structured record (an object type, with its field names), or something else
(here a tuple type, or `cty.DynamicPseudoType`, the type of `cty.DynamicVal`
and of an untyped `null`). -/
inductive Ty where
  | string
  | number
  | bool
  | object (attrs : List String)
  | tuple
  | dynamicPseudoType
  deriving DecidableEq, Repr

/-- Modelled from the spec: `Type.IsPrimitiveType` of the Value Classifier:
true of the primitive scalar types only. -/
def Ty.IsPrimitiveType : Ty → Bool
  | .string => true
  | .number => true
  | .bool => true
  | _ => false

/-- Modelled from the spec: `Type.IsObjectType` of the Value Classifier: true
of structured-record types only. -/
def Ty.IsObjectType : Ty → Bool
  | .object _ => true
  | _ => false

/-- Modelled from the spec: `Type.HasAttribute` of the Value Classifier: tests
a structured-record type for a named field. -/
def Ty.HasAttribute : Ty → String → Bool
  | .object attrs, name => attrs.contains name
  | _, _ => false

/-- Modelled from the spec: the literal values an attribute expression can
evaluate to (package `cty`). `NullVal` is the untyped `null` literal and
`DynamicVal` the placeholder returned for an expression that is not a
literal. -/
inductive Value where
  | StringVal (s : String)
  | NumberIntVal (n : Int)
  | BoolVal (b : Bool)
  | ObjectVal (attrs : List (String × Value))
  | TupleVal (elems : List Value)
  | NullVal
  | DynamicVal

/-- Modelled from the spec: `Value.Type` of the Value Classifier. -/
def Value.Type' : Value → Ty
  | .StringVal _ => .string
  | .NumberIntVal _ => .number
  | .BoolVal _ => .bool
  | .ObjectVal attrs => .object (attrs.map Prod.fst)
  | .TupleVal _ => .tuple
  | .NullVal => .dynamicPseudoType
  | .DynamicVal => .dynamicPseudoType

/-- Modelled from the spec: `Value.GetAttr`, reading a named field of a
structured record. The library aborts when the value is not a record or has
no such field: `none`. -/
def Value.GetAttr : Value → String → Option Value
  | .ObjectVal attrs, name => (attrs.find? (fun p => p.1 == name)).map Prod.snd
  | _, _ => none

/-- Modelled from the spec: `Value.AsString`, reading a value as a string. The
library defines it for a known, non-null string only and aborts on every
other value: `none`. -/
def Value.AsString : Value → Option String
  | .StringVal s => some s
  | _ => none

end cty

/-! ## Package `hcl`: expressions, attributes, blocks -/

namespace hcl

/-- Modelled from the spec: an unevaluated attribute expression
(`hcl.Expression`), given by what its two methods return: `Value(nil)`
yields `val` together with the diagnostics `diags` of the evaluation, and
`Range()` yields `rng`. For an object constructor, `items` lists each field
name with the range of that field's value expression (the pairs `hcl.ExprMap`
exposes); the decoder never reads it. -/
structure Expression where
  val : cty.Value
  diags : Diagnostics := []
  rng : Range := {}
  items : List (String × Range) := []

/-- Value is the method `Expression.Value(nil)`: the (possibly partial) value
and the diagnostics of the evaluation. -/
def Expression.Value (e : Expression) : cty.Value × Diagnostics :=
  (e.val, e.diags)

/-- Range is the method `Expression.Range()`. -/
def Expression.Range (e : Expression) : Range :=
  e.rng

/-- Attribute is a name bound to an expression within a block
(`hcl.Attribute`). -/
structure Attribute where
  Name : String
  Expr : Expression
  Range : hcl.Range := {}
  NameRange : hcl.Range := {}

/-- Attributes is the mapping from attribute name to attribute
(`hcl.Attributes`, a Go map): its entries, with distinct keys, in no
particular order. -/
abbrev Attributes := List (String × Attribute)

/-- Modelled from the spec: a block body (`hcl.Body`), given by what
`JustAttributes` returns for it. -/
structure Body where
  attrs : Attributes
  diags : Diagnostics := []

/-- JustAttributes is the method `Body.JustAttributes()`. -/
def Body.JustAttributes (b : Body) : Attributes × Diagnostics :=
  (b.attrs, b.diags)

/-- Block is a configuration block (`hcl.Block`); only its body is read. -/
structure Block where
  Body : hcl.Body

end hcl

/-! ## Package `configs` -/

namespace configs

open hcl cty

variable {κ : Type}

/-- VersionConstraint is a parsed constraint set with the range it was
declared at (`configs.VersionConstraint`). `κ` is the opaque constraint-set
type of package `go-version`; `Required = none` is Go's nil. -/
structure VersionConstraint (κ : Type) where
  Required : Option κ := none
  DeclRange : Range := {}
  deriving DecidableEq, Repr

/-- RequiredProvider is a declaration of a dependency on a provider
(`configs.RequiredProvider`); the defaults are Go's zero values. -/
structure RequiredProvider (κ : Type) where
  Name : String
  Source : String := ""
  Requirement : VersionConstraint κ := {}
  deriving DecidableEq, Repr

/-- Outcome is what a call of the decoder ends in: it returns its two
sequences, or the Go runtime aborts it. -/
inductive Outcome (κ : Type) where
  | returned (reqs : List (RequiredProvider κ)) (diags : Diagnostics)
  | panicked
  deriving DecidableEq, Repr

/-- The diagnostic for a string that is not a version constraint
(lines 59-64). -/
def invalidVersionConstraint (subject : Range) : Diagnostic :=
  { Severity := .DiagError
    Summary := "Invalid version constraint"
    Detail := "This string does not use correct version constraint syntax."
    Subject := some subject }

/-- The diagnostic for a `source` field (lines 71-76); `name` is the
attribute key substituted by `fmt.Sprintf`. -/
def sourceNotSupported (name : String) (subject : Range) : Diagnostic :=
  { Severity := .DiagWarning
    Summary := "Provider source not supported in Terraform v0.12"
    Detail := "A source was declared for provider " ++ name ++
      ". Terraform v0.12 does not support the provider source attribute. It will be ignored."
    Subject := some subject }

/-- The diagnostic for a value that is neither primitive nor an object
(lines 80-85). -/
def invalidRequirementsSyntax (subject : Range) : Diagnostic :=
  { Severity := .DiagError
    Summary := "Invalid provider_requirements syntax"
    Detail := "provider_requirements entries must be strings or objects."
    Subject := some subject }

/-- Modelled from the spec: the text a primitive value is read as when "the
whole value is treated as a version-constraint string". -/
def constraintText : Value → Option String
  | .StringVal s => some s
  | .NumberIntVal n => some (toString n)
  | .BoolVal b => some (if b then "true" else "false")
  | _ => none

/-- Modelled from the spec: `decodeVersionConstraint`, the primitive-shape
path of the decoder (defined in another file of package `configs` that is not
among the sources at hand). The whole value is treated as a version-constraint
string and parsed with the Constraint Parser `NewConstraint`. On success the
constraint is the parse and nothing is reported. On failure the parser's own
error text is dropped, the constraint is left unset and one generic Error
diagnostic located at the attribute's expression is reported. -/
def decodeVersionConstraint (NewConstraint : String → Except String κ) (attr : Attribute) :
    VersionConstraint κ × Diagnostics :=
  let ret : VersionConstraint κ := { DeclRange := attr.Range }
  match constraintText attr.Expr.Value.1 with
  | none => (ret, [])
  | some constraintStr =>
    match NewConstraint constraintStr with
    | .error _ => (ret, [invalidVersionConstraint attr.Expr.Range])
    | .ok constraints => ({ ret with Required := some constraints }, [])

/-- The `for name, attr := range attrs` loop of `decodeRequiredProvidersBlock`
(lines 33-91), run over the entries in the order they are visited, with the
current values of the variables `reqs` and `diags`.
`NewConstraint` is `version.NewConstraint` of package `go-version`. -/
def decodeLoop (NewConstraint : String → Except String κ) :
    Attributes → List (RequiredProvider κ) → Diagnostics → Outcome κ
  | [], reqs, diags => .returned reqs diags
  | (name, attr) :: rest, reqs, diags =>
    let (expr, err) := attr.Expr.Value
    -- `if err != nil { diags = append(diags, err...) }`
    let diags := diags ++ err
    let rp : RequiredProvider κ := { Name := name }
    if expr.Type'.IsPrimitiveType then
      let (vc, reqDiags) := decodeVersionConstraint NewConstraint attr
      let diags := diags ++ reqDiags
      let rp := { rp with Requirement := vc }
      decodeLoop NewConstraint rest (reqs ++ [rp]) diags
    else if expr.Type'.IsObjectType then
      let versioned : Option (RequiredProvider κ × Diagnostics) :=
        if expr.Type'.HasAttribute "version" then
          let vc : VersionConstraint κ := { DeclRange := attr.Range }
          -- `expr.GetAttr("version").AsString()` aborts unless it is a string
          match (expr.GetAttr "version").bind Value.AsString with
          | none => none
          | some constraintStr =>
            match NewConstraint constraintStr with
            | .error _ => some (rp, diags ++ [invalidVersionConstraint attr.Expr.Range])
            | .ok constraints =>
              some ({ rp with Requirement := { vc with Required := some constraints } }, diags)
        else some (rp, diags)
      match versioned with
      | none => .panicked
      | some (rp, diags) =>
        let diags :=
          if expr.Type'.HasAttribute "source" then
            diags ++ [sourceNotSupported name attr.Expr.Range]
          else diags
        decodeLoop NewConstraint rest (reqs ++ [rp]) diags
    else
      -- should not happen
      let diags := diags ++ [invalidRequirementsSyntax attr.Expr.Range]
      .returned (reqs ++ [{ Name := name }]) diags

/-- The function `decodeRequiredProvidersBlock` (lines 30-92).
`rangeOrder` is the order in which the `range` statement visits the entries of
the map `attrs`; the language leaves it unspecified, and every `rangeOrder`
that permutes its argument is a possible run. -/
def decodeRequiredProvidersBlock (NewConstraint : String → Except String κ) (block : Block)
    (rangeOrder : Attributes → Attributes) : Outcome κ :=
  let (attrs, diags) := block.Body.JustAttributes
  decodeLoop NewConstraint (rangeOrder attrs) [] diags

/-- The outcome of a run of the loop that starts from the accumulated
sequences `reqs` and `diags`, given the outcome of the same run started from
empty sequences. -/
def Outcome.prepend (reqs : List (RequiredProvider κ)) (diags : Diagnostics) :
    Outcome κ → Outcome κ
  | .returned rs ds => .returned (reqs ++ rs) (diags ++ ds)
  | .panicked => .panicked

/-- IsRangeOrder says that `rangeOrder` is a possible iteration order of a Go
map: it visits every entry exactly once. -/
def IsRangeOrder (rangeOrder : Attributes → Attributes) : Prop :=
  ∀ attrs, (rangeOrder attrs).Perm attrs

/-- The diagnostics lines 70-77 append for an attribute: the warning when the
value's type has a `source` attribute, nothing otherwise. -/
def sourceDiagnostics (name : String) (attr : Attribute) : Diagnostics :=
  if attr.Expr.Value.1.Type'.HasAttribute "source" then
    [sourceNotSupported name attr.Expr.Range]
  else []

/-- The shapes after which the loop goes on to the next entry: a primitive
value, or an object whose `version` attribute, when there is one, is a
string. -/
def loopContinues (attr : Attribute) : Bool :=
  let expr := attr.Expr.Value.1
  expr.Type'.IsPrimitiveType ||
    (expr.Type'.IsObjectType &&
      (!expr.Type'.HasAttribute "version" ||
        ((expr.GetAttr "version").bind Value.AsString).isSome))

/-- A stand-in for `version.NewConstraint` at which the theorems are
instantiated: it accepts the two constraint strings used in the
specification's examples and rejects everything else with the parser's raw
error text. -/
def sampleNewConstraint (s : String) : Except String String :=
  if s = "1.0" ∨ s = "~>1.0" then .ok s else .error ("Malformed constraint: " ++ s)

/-! ### Sample inputs -/

/-- A range on one line of the file `main.tf`, from column `fromCol` to column
`toCol` (byte offsets are left at zero). -/
def sampleRange (line fromCol toCol : Nat) : Range :=
  { Filename := "main.tf"
    Start := { Line := line, Column := fromCol }
    End := { Line := line, Column := toCol } }

/-- The attribute `name = <literal>` written on line `line`: the literal
evaluates to `v` without diagnostics. -/
def literalAttr (name : String) (v : Value) (line : Nat) : Attribute :=
  { Name := name
    Expr := { val := v, rng := sampleRange line 7 40 }
    Range := sampleRange line 3 40
    NameRange := sampleRange line 3 4 }

/-- The attribute `a = { version = "one point oh" }` written on line 2 of
`main.tf`: the object constructor spans columns 7 to 35, the value of its
`version` field columns 19 to 33. -/
def badVersionAttr : Attribute :=
  { Name := "a"
    Expr :=
      { val := .ObjectVal [("version", .StringVal "one point oh")]
        rng := sampleRange 2 7 35
        items := [("version", sampleRange 2 19 33)] }
    Range := sampleRange 2 3 35
    NameRange := sampleRange 2 3 4 }

/-- The diagnostic package `hcl` reports when a variable reference is
evaluated without an evaluation context, as `Value(nil)` does. -/
def variablesNotAllowed (subject : Range) : Diagnostic :=
  { Severity := .DiagError
    Summary := "Variables not allowed"
    Detail := "Variables may not be used here."
    Subject := some subject }

/-- The attribute `a = var.x` written on line 2 of `main.tf`: the expression
is not a literal, so its evaluation reports a diagnostic, and the partial
value is `cty.DynamicVal`. -/
def variableRefAttr : Attribute :=
  { Name := "a"
    Expr :=
      { val := .DynamicVal
        diags := [variablesNotAllowed (sampleRange 2 7 12)]
        rng := sampleRange 2 7 12 }
    Range := sampleRange 2 3 12
    NameRange := sampleRange 2 3 4 }

/-- The block with the two attributes `a = "not a constraint???"` (line 2)
and `b = { source = "x/y" }` (line 3). -/
def twoAttrBlock : Block :=
  ⟨⟨[("a", literalAttr "a" (.StringVal "not a constraint???") 2),
      ("b", literalAttr "b" (.ObjectVal [("source", .StringVal "x/y")]) 3)], []⟩⟩

/-- The attribute `name = var.x` written on line `line` of `main.tf`: the
expression is not a literal, so its evaluation reports a diagnostic, and the
partial value is `cty.DynamicVal`. -/
def failedReferenceAttr (name : String) (line : Nat) : Attribute :=
  { Name := name
    Expr :=
      { val := .DynamicVal
        diags := [variablesNotAllowed (sampleRange line 7 12)]
        rng := sampleRange line 7 12 }
    Range := sampleRange line 3 12
    NameRange := sampleRange line 3 4 }

end configs

/-! ## The loop, one entry at a time -/

namespace configs

open hcl cty

variable {κ : Type}

theorem hasAttribute_objectVal (fields : List (String × Value)) (k : String) :
    (Value.ObjectVal fields).Type'.HasAttribute k = true ↔ ∃ v, (k, v) ∈ fields := by
  simp [Value.Type', Ty.HasAttribute]

theorem getAttr_objectVal_mem (fields : List (String × Value)) (k : String) (v : Value)
    (h : (Value.ObjectVal fields).GetAttr k = some v) : (k, v) ∈ fields := by
  simp only [Value.GetAttr, Option.map_eq_some'] at h
  obtain ⟨p, hp, rfl⟩ := h
  have hk := List.find?_some hp
  have hm := List.mem_of_find?_eq_some hp
  simp only [beq_iff_eq] at hk
  rcases p with ⟨k', v'⟩
  simp only at hk
  subst hk
  exact hm

theorem getAttr_objectVal_none (fields : List (String × Value)) (k : String)
    (h : ∀ v, (k, v) ∉ fields) : (Value.ObjectVal fields).GetAttr k = none := by
  cases hg : (Value.ObjectVal fields).GetAttr k with
  | none => rfl
  | some v => exact absurd (getAttr_objectVal_mem fields k v hg) (h v)

theorem getAttr_objectVal_some (fields : List (String × Value)) (k : String) (v : Value)
    (h : (k, v) ∈ fields) : ∃ w, (Value.ObjectVal fields).GetAttr k = some w := by
  cases hg : (Value.ObjectVal fields).GetAttr k with
  | some w => exact ⟨w, rfl⟩
  | none =>
    simp only [Value.GetAttr, Option.map_eq_none', List.find?_eq_none] at hg
    exact absurd (hg (k, v) h) (by simp)

theorem decodeLoop_primitive (P : String → Except String κ) (name : String) (attr : Attribute)
    (rest : Attributes) (reqs : List (RequiredProvider κ)) (diags : Diagnostics)
    (h : attr.Expr.Value.1.Type'.IsPrimitiveType = true) :
    decodeLoop P ((name, attr) :: rest) reqs diags =
      decodeLoop P rest
        (reqs ++ [{ Name := name, Requirement := (decodeVersionConstraint P attr).1 }])
        (diags ++ attr.Expr.Value.2 ++ (decodeVersionConstraint P attr).2) := by
  simp [decodeLoop, h]

theorem decodeLoop_other (P : String → Except String κ) (name : String) (attr : Attribute)
    (rest : Attributes) (reqs : List (RequiredProvider κ)) (diags : Diagnostics)
    (hp : attr.Expr.Value.1.Type'.IsPrimitiveType = false)
    (ho : attr.Expr.Value.1.Type'.IsObjectType = false) :
    decodeLoop P ((name, attr) :: rest) reqs diags =
      .returned (reqs ++ [{ Name := name }])
        (diags ++ attr.Expr.Value.2 ++ [invalidRequirementsSyntax attr.Expr.Range]) := by
  simp [decodeLoop, hp, ho]

theorem decodeLoop_object_plain (P : String → Except String κ) (name : String)
    (attr : Attribute) (rest : Attributes) (reqs : List (RequiredProvider κ))
    (diags : Diagnostics)
    (ho : attr.Expr.Value.1.Type'.IsObjectType = true)
    (hv : attr.Expr.Value.1.Type'.HasAttribute "version" = false) :
    decodeLoop P ((name, attr) :: rest) reqs diags =
      decodeLoop P rest (reqs ++ [{ Name := name }])
        (diags ++ attr.Expr.Value.2 ++ sourceDiagnostics name attr) := by
  have hp : attr.Expr.Value.1.Type'.IsPrimitiveType = false := by
    cases hty : attr.Expr.Value.1.Type' <;> simp_all [Ty.IsObjectType, Ty.IsPrimitiveType]
  by_cases hsrc : attr.Expr.Value.1.Type'.HasAttribute "source" = true <;>
    simp [decodeLoop, hp, ho, hv, sourceDiagnostics, hsrc]

theorem decodeLoop_object_version (P : String → Except String κ) (name : String)
    (attr : Attribute) (rest : Attributes) (reqs : List (RequiredProvider κ))
    (diags : Diagnostics) (s : String)
    (ho : attr.Expr.Value.1.Type'.IsObjectType = true)
    (hv : attr.Expr.Value.1.Type'.HasAttribute "version" = true)
    (hs : (attr.Expr.Value.1.GetAttr "version").bind Value.AsString = some s) :
    decodeLoop P ((name, attr) :: rest) reqs diags =
      match P s with
      | .error _ =>
        decodeLoop P rest (reqs ++ [{ Name := name }])
          (diags ++ attr.Expr.Value.2 ++ [invalidVersionConstraint attr.Expr.Range] ++
            sourceDiagnostics name attr)
      | .ok c =>
        decodeLoop P rest
          (reqs ++ [{ Name := name, Requirement := { Required := some c, DeclRange := attr.Range } }])
          (diags ++ attr.Expr.Value.2 ++ sourceDiagnostics name attr) := by
  have hp : attr.Expr.Value.1.Type'.IsPrimitiveType = false := by
    cases hty : attr.Expr.Value.1.Type' <;> simp_all [Ty.IsObjectType, Ty.IsPrimitiveType]
  cases hP : P s <;>
    by_cases hsrc : attr.Expr.Value.1.Type'.HasAttribute "source" = true <;>
    simp [decodeLoop, hp, ho, hv, hs, hP, sourceDiagnostics, hsrc]

theorem decodeLoop_object_abort (P : String → Except String κ) (name : String)
    (attr : Attribute) (rest : Attributes) (reqs : List (RequiredProvider κ))
    (diags : Diagnostics)
    (ho : attr.Expr.Value.1.Type'.IsObjectType = true)
    (hv : attr.Expr.Value.1.Type'.HasAttribute "version" = true)
    (hs : (attr.Expr.Value.1.GetAttr "version").bind Value.AsString = none) :
    decodeLoop P ((name, attr) :: rest) reqs diags = .panicked := by
  have hp : attr.Expr.Value.1.Type'.IsPrimitiveType = false := by
    cases hty : attr.Expr.Value.1.Type' <;> simp_all [Ty.IsObjectType, Ty.IsPrimitiveType]
  simp [decodeLoop, hp, ho, hv, hs]

end configs

/-! ## Shared lemmas on the loop and on iteration orders -/

namespace configs

open hcl cty

variable {κ : Type}

theorem decodeLoop_continues (P : String → Except String κ) (name : String) (attr : Attribute)
    (h : loopContinues attr = true) :
    ∃ (rp : RequiredProvider κ) (ds : Diagnostics), rp.Name = name ∧ rp.Source = "" ∧
      ∀ (rest : Attributes) (reqs : List (RequiredProvider κ)) (diags : Diagnostics),
        decodeLoop P ((name, attr) :: rest) reqs diags =
          decodeLoop P rest (reqs ++ [rp]) (diags ++ attr.Expr.Value.2 ++ ds) := by
  by_cases hp : attr.Expr.Value.1.Type'.IsPrimitiveType = true
  · exact ⟨_, _, rfl, rfl, fun rest reqs diags =>
      decodeLoop_primitive P name attr rest reqs diags hp⟩
  · simp only [loopContinues, hp, Bool.false_or, Bool.and_eq_true, Bool.or_eq_true,
      Bool.not_eq_true', Option.isSome_iff_exists] at h
    obtain ⟨ho, hv⟩ := h
    rcases hv with hv | ⟨s, hs⟩
    · exact ⟨_, _, rfl, rfl, fun rest reqs diags =>
        decodeLoop_object_plain P name attr rest reqs diags ho hv⟩
    · by_cases hv : attr.Expr.Value.1.Type'.HasAttribute "version" = true
      · cases hP : P s with
        | error e =>
          refine ⟨{ Name := name }, [invalidVersionConstraint attr.Expr.Range] ++
            sourceDiagnostics name attr, rfl, rfl, fun rest reqs diags => ?_⟩
          rw [decodeLoop_object_version P name attr rest reqs diags s ho hv hs, hP]
          simp
        | ok c =>
          refine ⟨{ Name := name, Requirement := { Required := some c, DeclRange := attr.Range } },
            sourceDiagnostics name attr, rfl, rfl, fun rest reqs diags => ?_⟩
          rw [decodeLoop_object_version P name attr rest reqs diags s ho hv hs, hP]
      · exact ⟨_, _, rfl, rfl, fun rest reqs diags =>
          decodeLoop_object_plain P name attr rest reqs diags ho (by simpa using hv)⟩

theorem decodeLoop_halts (P : String → Except String κ) (name : String) (attr : Attribute)
    (h : loopContinues attr = false) :
    (∀ (rest : Attributes) (reqs : List (RequiredProvider κ)) (diags : Diagnostics),
        decodeLoop P ((name, attr) :: rest) reqs diags =
          .returned (reqs ++ [{ Name := name }])
            (diags ++ attr.Expr.Value.2 ++ [invalidRequirementsSyntax attr.Expr.Range])) ∨
    (∀ (rest : Attributes) (reqs : List (RequiredProvider κ)) (diags : Diagnostics),
        decodeLoop P ((name, attr) :: rest) reqs diags = .panicked) := by
  simp only [loopContinues, Bool.or_eq_false_iff, Bool.and_eq_false_iff, Bool.not_eq_false'] at h
  obtain ⟨hp, ho⟩ := h
  rcases ho with ho | ⟨hv, hs⟩
  · exact Or.inl fun rest reqs diags => decodeLoop_other P name attr rest reqs diags hp ho
  · by_cases ho : attr.Expr.Value.1.Type'.IsObjectType = true
    · exact Or.inr fun rest reqs diags =>
        decodeLoop_object_abort P name attr rest reqs diags ho hv
          (by cases hb : (attr.Expr.Value.1.GetAttr "version").bind Value.AsString <;> simp_all)
    · exact Or.inl fun rest reqs diags =>
        decodeLoop_other P name attr rest reqs diags hp (by simpa using ho)

theorem decodeLoop_returned_extends (P : String → Except String κ) (attrs : Attributes) :
    ∀ (reqs rs : List (RequiredProvider κ)) (diags ds : Diagnostics),
      decodeLoop P attrs reqs diags = .returned rs ds →
        ∃ rs' ds', rs = reqs ++ rs' ∧ ds = diags ++ ds' := by
  induction attrs with
  | nil =>
    intro reqs rs diags ds h
    simp only [decodeLoop, Outcome.returned.injEq] at h
    exact ⟨[], [], by simp [h.1], by simp [h.2]⟩
  | cons x rest ih =>
    intro reqs rs diags ds h
    obtain ⟨name, attr⟩ := x
    cases hc : loopContinues attr with
    | true =>
      obtain ⟨rp, ds0, -, -, hstep⟩ := decodeLoop_continues P name attr hc
      rw [hstep] at h
      obtain ⟨rs', ds', h1, h2⟩ := ih _ _ _ _ h
      exact ⟨[rp] ++ rs', attr.Expr.Value.2 ++ ds0 ++ ds', by simp [h1], by simp [h2]⟩
    | false =>
      rcases decodeLoop_halts P name attr hc with hstop | hpanic
      · rw [hstop] at h
        simp only [Outcome.returned.injEq] at h
        exact ⟨_, _, h.1.symm, by rw [← h.2, List.append_assoc]⟩
      · rw [hpanic] at h
        exact absurd h (by simp)

theorem Outcome.prepend_prepend (o : Outcome κ) (r1 r2 : List (RequiredProvider κ))
    (d1 d2 : Diagnostics) :
    (o.prepend r1 d1).prepend r2 d2 = o.prepend (r2 ++ r1) (d2 ++ d1) := by
  cases o <;> simp [Outcome.prepend]

theorem decodeLoop_prepend (P : String → Except String κ) (attrs : Attributes) :
    ∀ (reqs : List (RequiredProvider κ)) (diags : Diagnostics),
      decodeLoop P attrs reqs diags = (decodeLoop P attrs [] []).prepend reqs diags := by
  induction attrs with
  | nil => intro reqs diags; simp [decodeLoop, Outcome.prepend]
  | cons x rest ih =>
    intro reqs diags
    obtain ⟨name, attr⟩ := x
    cases hc : loopContinues attr with
    | true =>
      obtain ⟨rp, ds0, -, -, hstep⟩ := decodeLoop_continues P name attr hc
      rw [hstep, hstep, ih, ih ([] ++ [rp]), Outcome.prepend_prepend]
      simp
    | false =>
      rcases decodeLoop_halts P name attr hc with hstop | hpanic
      · rw [hstop, hstop]; simp [Outcome.prepend]
      · rw [hpanic, hpanic]; rfl

theorem decodeLoop_cons_continues (P : String → Except String κ) (name : String)
    (attr : Attribute) (h : loopContinues attr = true) :
    ∃ (rp : RequiredProvider κ) (dsx : Diagnostics), rp.Name = name ∧
      ∀ (rest : Attributes) (rs : List (RequiredProvider κ)) (ds : Diagnostics),
        decodeLoop P rest [] [] = .returned rs ds →
          decodeLoop P ((name, attr) :: rest) [] [] = .returned (rp :: rs) (dsx ++ ds) := by
  obtain ⟨rp, ds0, hn, -, hstep⟩ := decodeLoop_continues P name attr h
  refine ⟨rp, attr.Expr.Value.2 ++ ds0, hn, fun rest rs ds hrest => ?_⟩
  rw [hstep, decodeLoop_prepend, hrest]
  simp [Outcome.prepend]

theorem decodeLoop_returns (P : String → Except String κ) (attrs : Attributes)
    (h : ∀ x ∈ attrs, loopContinues x.2 = true) :
    ∃ (rs : List (RequiredProvider κ)) (ds : Diagnostics),
      decodeLoop P attrs [] [] = .returned rs ds := by
  induction attrs with
  | nil => exact ⟨[], [], rfl⟩
  | cons x rest ih =>
    obtain ⟨name, attr⟩ := x
    obtain ⟨rs, ds, hrest⟩ := ih (fun y hy => h y (List.mem_cons_of_mem _ hy))
    obtain ⟨rp, dsx, -, hcons⟩ :=
      decodeLoop_cons_continues P name attr (h (name, attr) (List.mem_cons_self _ _))
    exact ⟨_, _, hcons rest rs ds hrest⟩

theorem decodeLoop_perm (P : String → Except String κ) (l₁ l₂ : Attributes)
    (hperm : l₁.Perm l₂) (h : ∀ x ∈ l₁, loopContinues x.2 = true) :
    ∃ (rs₁ rs₂ : List (RequiredProvider κ)) (ds₁ ds₂ : Diagnostics),
      decodeLoop P l₁ [] [] = .returned rs₁ ds₁ ∧
      decodeLoop P l₂ [] [] = .returned rs₂ ds₂ ∧ rs₁.Perm rs₂ ∧ ds₁.Perm ds₂ := by
  induction hperm with
  | nil => exact ⟨[], [], [], [], rfl, rfl, List.Perm.refl _, List.Perm.refl _⟩
  | @cons x l₁ l₂ _ ih =>
    obtain ⟨name, attr⟩ := x
    obtain ⟨rs₁, rs₂, ds₁, ds₂, e₁, e₂, pr, pd⟩ :=
      ih (fun y hy => h y (List.mem_cons_of_mem _ hy))
    obtain ⟨rp, dsx, -, hcons⟩ :=
      decodeLoop_cons_continues P name attr (h (name, attr) (List.mem_cons_self _ _))
    exact ⟨_, _, _, _, hcons l₁ rs₁ ds₁ e₁, hcons l₂ rs₂ ds₂ e₂, pr.cons rp,
      pd.append_left dsx⟩
  | @swap x y l =>
    obtain ⟨nx, ax⟩ := x
    obtain ⟨ny, ay⟩ := y
    have hy := h (ny, ay) (List.mem_cons_self _ _)
    have hx := h (nx, ax) (List.mem_cons_of_mem _ (List.mem_cons_self _ _))
    obtain ⟨rs, ds, hl⟩ := decodeLoop_returns P l
      (fun z hz => h z (List.mem_cons_of_mem _ (List.mem_cons_of_mem _ hz)))
    obtain ⟨rpx, dx, -, hcx⟩ := decodeLoop_cons_continues P nx ax hx
    obtain ⟨rpy, dy, -, hcy⟩ := decodeLoop_cons_continues P ny ay hy
    refine ⟨_, _, _, _, hcy _ _ _ (hcx _ _ _ hl), hcx _ _ _ (hcy _ _ _ hl),
      List.Perm.swap _ _ _, ?_⟩
    rw [← List.append_assoc, ← List.append_assoc]
    exact List.Perm.append_right _ List.perm_append_comm
  | @trans l₁ l₂ l₃ h₁₂ _ ih₁ ih₂ =>
    obtain ⟨rs₁, rs₂, ds₁, ds₂, e₁, e₂, pr, pd⟩ := ih₁ h
    obtain ⟨rs₂', rs₃, ds₂', ds₃, e₂', e₃, pr', pd'⟩ :=
      ih₂ (fun y hy => h y (h₁₂.mem_iff.mpr hy))
    rw [e₂] at e₂'
    simp only [Outcome.returned.injEq] at e₂'
    obtain ⟨rfl, rfl⟩ := e₂'
    exact ⟨_, _, _, _, e₁, e₃, pr.trans pr', pd.trans pd'⟩

theorem rangeOrder_singleton (rangeOrder : Attributes → Attributes)
    (h : IsRangeOrder rangeOrder) (x : String × Attribute) : rangeOrder [x] = [x] :=
  List.perm_singleton.mp (h [x])

theorem decodeBlock_single (P : String → Except String κ) (name : String) (attr : Attribute)
    (rp : RequiredProvider κ) (ds : Diagnostics)
    (hstep : ∀ (rest : Attributes) (reqs : List (RequiredProvider κ)) (diags : Diagnostics),
      decodeLoop P ((name, attr) :: rest) reqs diags =
        decodeLoop P rest (reqs ++ [rp]) (diags ++ ds))
    (bodyDiags : Diagnostics) (rangeOrder : Attributes → Attributes)
    (hro : IsRangeOrder rangeOrder) :
    decodeRequiredProvidersBlock P ⟨⟨[(name, attr)], bodyDiags⟩⟩ rangeOrder =
      .returned [rp] (bodyDiags ++ ds) := by
  simp only [decodeRequiredProvidersBlock, Body.JustAttributes,
    rangeOrder_singleton rangeOrder hro, hstep, decodeLoop, List.nil_append]

theorem perm_pair_cases {α : Type} (l : List α) (x y : α) (h : l.Perm [x, y]) :
    l = [x, y] ∨ l = [y, x] := by
  have hlen := h.length_eq
  match l, hlen with
  | [p, q], _ =>
    have hp : p ∈ [x, y] := h.subset (by simp)
    simp only [List.mem_cons, List.mem_singleton, List.not_mem_nil, or_false] at hp
    rcases hp with rfl | rfl
    · have := List.perm_singleton.mp (List.Perm.cons_inv h)
      simp_all
    · have h2 : [p, q].Perm [p, x] := h.trans (List.Perm.swap _ _ _)
      have := List.perm_singleton.mp (List.Perm.cons_inv h2)
      simp_all

end configs

/-! ## The claims -/

namespace configs

open hcl cty

variable {κ : Type}

/-- C1. Take an attribute whose expression evaluates, without diagnostics, to a
string `s` that the constraint parser accepts as `c`. Whenever the loop of
`decodeRequiredProvidersBlock` visits it (whatever has been accumulated and
whatever follows), it appends exactly one declaration, with `Name` the
attribute key and `Requirement` the parse `c`, appends no diagnostic, and goes
on with the remaining attributes. In particular a block with just this
attribute decodes to that single declaration and no diagnostic beyond those of
`JustAttributes`. -/
theorem primitive_string_accepted (P : String → Except String κ) (name : String)
    (attr : Attribute) (s : String) (c : κ)
    (hv : attr.Expr.Value = (.StringVal s, []))
    (hp : P s = .ok c) :
    (∀ (rest : Attributes) (reqs : List (RequiredProvider κ)) (diags : Diagnostics),
      decodeLoop P ((name, attr) :: rest) reqs diags =
        decodeLoop P rest
          (reqs ++ [{ Name := name
                      Requirement := { Required := some c, DeclRange := attr.Range } }])
          diags) ∧
    (∀ (bodyDiags : Diagnostics) (rangeOrder : Attributes → Attributes),
      IsRangeOrder rangeOrder →
      decodeRequiredProvidersBlock P ⟨⟨[(name, attr)], bodyDiags⟩⟩ rangeOrder =
        .returned
          [{ Name := name, Requirement := { Required := some c, DeclRange := attr.Range } }]
          bodyDiags) := by
  have h1 : attr.Expr.Value.1 = .StringVal s := by rw [hv]
  have h2 : attr.Expr.Value.2 = [] := by rw [hv]
  have hd : decodeVersionConstraint P attr =
      ({ Required := some c, DeclRange := attr.Range }, []) := by
    simp [decodeVersionConstraint, h1, constraintText, hp]
  have hstep : ∀ (rest : Attributes) (reqs : List (RequiredProvider κ)) (diags : Diagnostics),
      decodeLoop P ((name, attr) :: rest) reqs diags =
        decodeLoop P rest
          (reqs ++ [{ Name := name
                      Requirement := { Required := some c, DeclRange := attr.Range } }])
          diags := by
    intro rest reqs diags
    rw [decodeLoop_primitive P name attr rest reqs diags (by rw [h1]; rfl), hd, h2]
    simp
  refine ⟨hstep, fun bodyDiags rangeOrder hro => ?_⟩
  simp only [decodeRequiredProvidersBlock, Body.JustAttributes,
    rangeOrder_singleton rangeOrder hro, hstep, decodeLoop, List.nil_append]

/-- C1, at the block `a = "~>1.0"`. -/
theorem primitive_string_accepted_witness :
    decodeRequiredProvidersBlock sampleNewConstraint
        ⟨⟨[("a", literalAttr "a" (.StringVal "~>1.0") 2)], []⟩⟩ id =
      .returned
        [{ Name := "a"
           Requirement := { Required := some "~>1.0", DeclRange := sampleRange 2 3 40 } }]
        [] :=
  (primitive_string_accepted sampleNewConstraint "a" (literalAttr "a" (.StringVal "~>1.0") 2)
    "~>1.0" "~>1.0" rfl rfl).2 [] id (fun _ => List.Perm.refl _)

/-- C2. Take an attribute whose expression evaluates, without diagnostics, to a
string `s` that the constraint parser rejects, with whatever error text `e`.
Whenever the loop visits it, it still appends a declaration for it (`Name`
set, `Required` unset), appends exactly one diagnostic, the generic "Invalid
version constraint" of severity Error whose subject is the attribute's
expression and whose text does not depend on `e`, and goes on with the
remaining attributes; so whenever the call returns, the returned sequences
contain that declaration and that diagnostic. In particular a block with just
this attribute decodes to that declaration and, after the diagnostics of
`JustAttributes`, that one diagnostic. -/
theorem primitive_string_rejected (P : String → Except String κ) (name : String)
    (attr : Attribute) (s e : String)
    (hv : attr.Expr.Value = (.StringVal s, []))
    (hp : P s = .error e) :
    (∀ (rest : Attributes) (reqs : List (RequiredProvider κ)) (diags : Diagnostics),
      decodeLoop P ((name, attr) :: rest) reqs diags =
        decodeLoop P rest
          (reqs ++ [{ Name := name
                      Requirement := { Required := none, DeclRange := attr.Range } }])
          (diags ++ [invalidVersionConstraint attr.Expr.Range])) ∧
    (invalidVersionConstraint attr.Expr.Range).Severity = .DiagError ∧
    (invalidVersionConstraint attr.Expr.Range).Subject = some attr.Expr.Range ∧
    (∀ (rest : Attributes) (reqs rs : List (RequiredProvider κ)) (diags ds : Diagnostics),
      decodeLoop P ((name, attr) :: rest) reqs diags = .returned rs ds →
        invalidVersionConstraint attr.Expr.Range ∈ ds ∧
        ∃ rp ∈ rs, rp.Name = name ∧ rp.Requirement.Required = none) ∧
    (∀ (bodyDiags : Diagnostics) (rangeOrder : Attributes → Attributes),
      IsRangeOrder rangeOrder →
      decodeRequiredProvidersBlock P ⟨⟨[(name, attr)], bodyDiags⟩⟩ rangeOrder =
        .returned
          [{ Name := name, Requirement := { Required := none, DeclRange := attr.Range } }]
          (bodyDiags ++ [invalidVersionConstraint attr.Expr.Range])) := by
  have h1 : attr.Expr.Value.1 = .StringVal s := by rw [hv]
  have h2 : attr.Expr.Value.2 = [] := by rw [hv]
  have hd : decodeVersionConstraint P attr =
      ({ Required := none, DeclRange := attr.Range },
        [invalidVersionConstraint attr.Expr.Range]) := by
    simp [decodeVersionConstraint, h1, constraintText, hp]
  have hstep : ∀ (rest : Attributes) (reqs : List (RequiredProvider κ)) (diags : Diagnostics),
      decodeLoop P ((name, attr) :: rest) reqs diags =
        decodeLoop P rest
          (reqs ++ [{ Name := name
                      Requirement := { Required := none, DeclRange := attr.Range } }])
          (diags ++ [invalidVersionConstraint attr.Expr.Range]) := by
    intro rest reqs diags
    rw [decodeLoop_primitive P name attr rest reqs diags (by rw [h1]; rfl), hd, h2]
    simp
  refine ⟨hstep, rfl, rfl, fun rest reqs rs diags ds hret => ?_,
    decodeBlock_single P name attr _ _ hstep⟩
  rw [hstep] at hret
  obtain ⟨rs', ds', hrs, hds⟩ := decodeLoop_returned_extends P rest _ _ _ _ hret
  subst hrs hds
  exact ⟨by simp,
    ⟨{ Name := name, Requirement := { Required := none, DeclRange := attr.Range } },
      by simp, rfl, rfl⟩⟩

/-- C2, at the block `a = "not a constraint???"`. -/
theorem primitive_string_rejected_witness :
    decodeRequiredProvidersBlock sampleNewConstraint
        ⟨⟨[("a", literalAttr "a" (.StringVal "not a constraint???") 2)], []⟩⟩ id =
      .returned
        [{ Name := "a", Requirement := { Required := none, DeclRange := sampleRange 2 3 40 } }]
        [{ Severity := .DiagError
           Summary := "Invalid version constraint"
           Detail := "This string does not use correct version constraint syntax."
           Subject := some (sampleRange 2 7 40) }] :=
  (primitive_string_rejected sampleNewConstraint "a"
    (literalAttr "a" (.StringVal "not a constraint???") 2) "not a constraint???"
    "Malformed constraint: not a constraint???" rfl rfl).2.2.2.2 [] id
    (fun _ => List.Perm.refl _)

end configs

namespace configs

open hcl cty

variable {κ : Type}

/-- C3, amended. Take an attribute whose expression evaluates, without
diagnostics, to a record whose `version` field is the string `s`. Whenever the
loop visits it: if the constraint parser rejects `s`, the decoder appends the
Error diagnostic "Invalid version constraint" / "This string does not use
correct version constraint syntax." whose subject is the range of the whole
attribute expression, and leaves the declaration's `Requirement` unset; if the
parser accepts `s` as `c`, `Requirement` is `c` (declared at the attribute's
range) and no Error is appended. The only other diagnostic appended for the
attribute is the `source` warning. -/
theorem object_version_field (P : String → Except String κ) (name : String)
    (attr : Attribute) (fields : List (String × Value)) (s : String)
    (hv : attr.Expr.Value = (.ObjectVal fields, []))
    (hver : (Value.ObjectVal fields).GetAttr "version" = some (.StringVal s)) :
    (∀ e, P s = .error e →
      ∀ (rest : Attributes) (reqs : List (RequiredProvider κ)) (diags : Diagnostics),
        decodeLoop P ((name, attr) :: rest) reqs diags =
          decodeLoop P rest (reqs ++ [{ Name := name }])
            (diags ++ [invalidVersionConstraint attr.Expr.Range] ++
              sourceDiagnostics name attr)) ∧
    (∀ c, P s = .ok c →
      ∀ (rest : Attributes) (reqs : List (RequiredProvider κ)) (diags : Diagnostics),
        decodeLoop P ((name, attr) :: rest) reqs diags =
          decodeLoop P rest
            (reqs ++ [{ Name := name
                        Requirement := { Required := some c, DeclRange := attr.Range } }])
            (diags ++ sourceDiagnostics name attr)) ∧
    invalidVersionConstraint attr.Expr.Range =
      { Severity := .DiagError
        Summary := "Invalid version constraint"
        Detail := "This string does not use correct version constraint syntax."
        Subject := some attr.Expr.Range } ∧
    (∀ d ∈ sourceDiagnostics name attr, d.Severity = .DiagWarning) := by
  have h1 : attr.Expr.Value.1 = .ObjectVal fields := by rw [hv]
  have h2 : attr.Expr.Value.2 = [] := by rw [hv]
  have ho : attr.Expr.Value.1.Type'.IsObjectType = true := by rw [h1]; rfl
  have hh : attr.Expr.Value.1.Type'.HasAttribute "version" = true := by
    rw [h1]
    exact (hasAttribute_objectVal fields "version").mpr
      ⟨_, getAttr_objectVal_mem fields "version" _ hver⟩
  have hs : (attr.Expr.Value.1.GetAttr "version").bind Value.AsString = some s := by
    rw [h1, hver]; rfl
  refine ⟨fun e he rest reqs diags => ?_, fun c hc rest reqs diags => ?_, rfl, ?_⟩
  · rw [decodeLoop_object_version P name attr rest reqs diags s ho hh hs, he, h2]
    simp
  · rw [decodeLoop_object_version P name attr rest reqs diags s ho hh hs, hc, h2]
    simp
  · intro d hd
    unfold sourceDiagnostics at hd
    split at hd
    · simp only [List.mem_singleton] at hd
      subst hd
      rfl
    · simp at hd

/-- C3, amended, at the block `a = { version = "one point oh" }`. -/
theorem object_version_field_witness :
    decodeLoop sampleNewConstraint [("a", badVersionAttr)] [] [] =
      .returned [{ Name := "a" }] [invalidVersionConstraint (sampleRange 2 7 35)] :=
  (object_version_field sampleNewConstraint "a" badVersionAttr
    [("version", .StringVal "one point oh")] "one point oh" rfl rfl).1
    "Malformed constraint: one point oh" rfl [] [] []

/-- C3 as stated fails: for `a = { version = "one point oh" }` the Error
diagnostic's subject is the range of the whole object constructor (columns 7
to 35), not the range of the `version` field's value (columns 19 to 33). -/
theorem version_error_location_counterexample :
    decodeRequiredProvidersBlock sampleNewConstraint ⟨⟨[("a", badVersionAttr)], []⟩⟩ id =
      .returned [{ Name := "a" }]
        [{ Severity := .DiagError
           Summary := "Invalid version constraint"
           Detail := "This string does not use correct version constraint syntax."
           Subject := some (sampleRange 2 7 35) }] ∧
    badVersionAttr.Expr.Range = sampleRange 2 7 35 ∧
    badVersionAttr.Expr.items.lookup "version" = some (sampleRange 2 19 33) ∧
    some (sampleRange 2 7 35) ≠ badVersionAttr.Expr.items.lookup "version" := by
  refine ⟨rfl, rfl, rfl, ?_⟩
  decide

/-- C4. Take a block whose `JustAttributes` yields the two attributes `a` and
`b` and no diagnostics, visited in that order, where the expression of `a`
evaluates without diagnostics to a value that is neither primitive nor an
object. Then `decodeRequiredProvidersBlock` returns exactly one declaration,
the empty one for `a` (only `Name` set), and exactly one diagnostic, of
severity Error; whatever `b` is, it is not decoded and no declaration named
`b` is returned. -/
theorem malformed_first_attribute (P : String → Except String κ) (block : Block)
    (rangeOrder : Attributes → Attributes) (a b : String) (attrA attrB : Attribute)
    (hattrs : block.Body.JustAttributes = ([(a, attrA), (b, attrB)], []))
    (hord : rangeOrder [(a, attrA), (b, attrB)] = [(a, attrA), (b, attrB)])
    (hab : a ≠ b)
    (hclean : attrA.Expr.Value.2 = [])
    (hprim : attrA.Expr.Value.1.Type'.IsPrimitiveType = false)
    (hobj : attrA.Expr.Value.1.Type'.IsObjectType = false) :
    decodeRequiredProvidersBlock P block rangeOrder =
      .returned [{ Name := a, Source := "", Requirement := {} }]
        [invalidRequirementsSyntax attrA.Expr.Range] ∧
    (invalidRequirementsSyntax attrA.Expr.Range).Severity = .DiagError ∧
    ∀ rp ∈ [({ Name := a, Source := "", Requirement := {} } : RequiredProvider κ)],
      rp.Name ≠ b := by
  refine ⟨?_, rfl, ?_⟩
  · simp only [decodeRequiredProvidersBlock, hattrs, hord]
    rw [decodeLoop_other P a attrA _ _ _ hprim hobj, hclean]
    simp
  · intro rp hrp
    simp only [List.mem_singleton] at hrp
    subst hrp
    exact hab

/-- C4, at the block `a = ["x"]`, `b = "~>1.0"`. -/
theorem malformed_first_attribute_witness :
    decodeRequiredProvidersBlock sampleNewConstraint
        ⟨⟨[("a", literalAttr "a" (.TupleVal [.StringVal "x"]) 2),
            ("b", literalAttr "b" (.StringVal "~>1.0") 3)], []⟩⟩ id =
      .returned [{ Name := "a" }]
        [{ Severity := .DiagError
           Summary := "Invalid provider_requirements syntax"
           Detail := "provider_requirements entries must be strings or objects."
           Subject := some (sampleRange 2 7 40) }] :=
  (malformed_first_attribute sampleNewConstraint
    ⟨⟨[("a", literalAttr "a" (.TupleVal [.StringVal "x"]) 2),
        ("b", literalAttr "b" (.StringVal "~>1.0") 3)], []⟩⟩ id "a" "b"
    (literalAttr "a" (.TupleVal [.StringVal "x"]) 2)
    (literalAttr "b" (.StringVal "~>1.0") 3) rfl rfl (by decide) rfl rfl rfl).1

/-- C5, amended. Take an attribute whose expression evaluates to the partial
value `v` with the diagnostics `err`. Whenever the loop visits it, the
diagnostics `err` are appended and `v` is classified all the same. When `v` is
primitive, or an object whose `version` field is absent or a string, one
declaration named after the attribute is appended and the loop goes on with
the attributes after it. When `v` is neither primitive nor an object, the
decoder appends "Invalid provider_requirements syntax" and the empty
declaration and returns at once: the attributes after it are not visited. -/
theorem eval_failure_then_classified (P : String → Except String κ) (name : String)
    (attr : Attribute) (v : Value) (err : Diagnostics)
    (hv : attr.Expr.Value = (v, err)) :
    (loopContinues attr = true →
      ∃ (rp : RequiredProvider κ) (ds : Diagnostics), rp.Name = name ∧
        ∀ (rest : Attributes) (reqs : List (RequiredProvider κ)) (diags : Diagnostics),
          decodeLoop P ((name, attr) :: rest) reqs diags =
            decodeLoop P rest (reqs ++ [rp]) (diags ++ err ++ ds)) ∧
    (v.Type'.IsPrimitiveType = false → v.Type'.IsObjectType = false →
      ∀ (rest : Attributes) (reqs : List (RequiredProvider κ)) (diags : Diagnostics),
        decodeLoop P ((name, attr) :: rest) reqs diags =
          .returned (reqs ++ [{ Name := name }])
            (diags ++ err ++ [invalidRequirementsSyntax attr.Expr.Range])) := by
  have h1 : attr.Expr.Value.1 = v := by rw [hv]
  have h2 : attr.Expr.Value.2 = err := by rw [hv]
  constructor
  · intro hc
    obtain ⟨rp, ds, hn, -, hstep⟩ := decodeLoop_continues P name attr hc
    exact ⟨rp, ds, hn, fun rest reqs diags => by rw [hstep, h2]⟩
  · intro hp ho rest reqs diags
    rw [decodeLoop_other P name attr rest reqs diags (by rw [h1]; exact hp)
      (by rw [h1]; exact ho), h2]

/-- C5, amended, at the block `a = var.x`, `b = "~>1.0"`. -/
theorem eval_failure_then_classified_witness :
    decodeLoop sampleNewConstraint
        [("a", variableRefAttr), ("b", literalAttr "b" (.StringVal "~>1.0") 3)] [] [] =
      .returned [{ Name := "a" }]
        [variablesNotAllowed (sampleRange 2 7 12),
          invalidRequirementsSyntax (sampleRange 2 7 12)] :=
  (eval_failure_then_classified sampleNewConstraint "a" variableRefAttr .DynamicVal
    [variablesNotAllowed (sampleRange 2 7 12)] rfl).2 rfl rfl
    [("b", literalAttr "b" (.StringVal "~>1.0") 3)] [] []

/-- C5 as stated fails: in the block `a = var.x`, `b = "~>1.0"`, visited in
that order, the evaluation of `a` fails, its diagnostic is appended, and the
decoder then returns without visiting `b`: no declaration named `b` is
returned, although `b` alone decodes to one. -/
theorem eval_failure_stops_block_counterexample :
    decodeRequiredProvidersBlock sampleNewConstraint
        ⟨⟨[("a", variableRefAttr), ("b", literalAttr "b" (.StringVal "~>1.0") 3)], []⟩⟩ id =
      .returned [{ Name := "a" }]
        [variablesNotAllowed (sampleRange 2 7 12),
          invalidRequirementsSyntax (sampleRange 2 7 12)] ∧
    decodeRequiredProvidersBlock sampleNewConstraint
        ⟨⟨[("b", literalAttr "b" (.StringVal "~>1.0") 3)], []⟩⟩ id =
      .returned
        [{ Name := "b"
           Requirement := { Required := some "~>1.0", DeclRange := sampleRange 3 3 40 } }]
        [] :=
  ⟨rfl, rfl⟩

end configs

namespace configs

open hcl cty

variable {κ : Type}

/-- C6. Take an attribute whose expression evaluates, without diagnostics, to a
record with exactly the two fields `version = "1.0"` and `source = "x/y"`,
listed in either order, where the constraint parser accepts `"1.0"` as `c`.
Whenever the loop visits it, it appends one declaration carrying `c` and
exactly one diagnostic, the `source` warning (severity Warning, hence no
Error), and the declaration and the diagnostic are the same for both orders
of the fields. In particular a block with just this attribute decodes to that
declaration and that single warning. -/
theorem version_and_source_any_order (P : String → Except String κ) (name : String)
    (attr : Attribute) (fields : List (String × Value)) (c : κ)
    (hv : attr.Expr.Value = (.ObjectVal fields, []))
    (hf : fields.Perm [("version", .StringVal "1.0"), ("source", .StringVal "x/y")])
    (hp : P "1.0" = .ok c) :
    (∀ (rest : Attributes) (reqs : List (RequiredProvider κ)) (diags : Diagnostics),
      decodeLoop P ((name, attr) :: rest) reqs diags =
        decodeLoop P rest
          (reqs ++ [{ Name := name
                      Requirement := { Required := some c, DeclRange := attr.Range } }])
          (diags ++ [sourceNotSupported name attr.Expr.Range])) ∧
    (sourceNotSupported name attr.Expr.Range).Severity = .DiagWarning ∧
    (∀ (rangeOrder : Attributes → Attributes), IsRangeOrder rangeOrder →
      decodeRequiredProvidersBlock P ⟨⟨[(name, attr)], []⟩⟩ rangeOrder =
        .returned
          [{ Name := name, Requirement := { Required := some c, DeclRange := attr.Range } }]
          [sourceNotSupported name attr.Expr.Range]) := by
  have h1 : attr.Expr.Value.1 = .ObjectVal fields := by rw [hv]
  have h2 : attr.Expr.Value.2 = [] := by rw [hv]
  have hfacts : attr.Expr.Value.1.Type'.IsObjectType = true ∧
      attr.Expr.Value.1.Type'.HasAttribute "version" = true ∧
      (attr.Expr.Value.1.GetAttr "version").bind Value.AsString = some "1.0" ∧
      attr.Expr.Value.1.Type'.HasAttribute "source" = true := by
    rw [h1]
    rcases perm_pair_cases fields _ _ hf with rfl | rfl
    · exact ⟨rfl, rfl, rfl, rfl⟩
    · exact ⟨rfl, rfl, rfl, rfl⟩
  obtain ⟨ho, hh, hs, hsrc⟩ := hfacts
  have hstep : ∀ (rest : Attributes) (reqs : List (RequiredProvider κ)) (diags : Diagnostics),
      decodeLoop P ((name, attr) :: rest) reqs diags =
        decodeLoop P rest
          (reqs ++ [{ Name := name
                      Requirement := { Required := some c, DeclRange := attr.Range } }])
          (diags ++ [sourceNotSupported name attr.Expr.Range]) := by
    intro rest reqs diags
    rw [decodeLoop_object_version P name attr rest reqs diags "1.0" ho hh hs, hp, h2]
    simp [sourceDiagnostics, hsrc]
  refine ⟨hstep, rfl, fun rangeOrder hro => ?_⟩
  simp only [decodeRequiredProvidersBlock, Body.JustAttributes,
    rangeOrder_singleton rangeOrder hro, hstep, decodeLoop, List.nil_append]

/-- C6, at the block `a = { source = "x/y", version = "1.0" }`, the fields in
the order opposite to the one the claim lists them in. -/
theorem version_and_source_any_order_witness :
    decodeRequiredProvidersBlock sampleNewConstraint
        ⟨⟨[("a", literalAttr "a"
              (.ObjectVal [("source", .StringVal "x/y"), ("version", .StringVal "1.0")]) 2)],
          []⟩⟩ id =
      .returned
        [{ Name := "a"
           Requirement := { Required := some "1.0", DeclRange := sampleRange 2 3 40 } }]
        [sourceNotSupported "a" (sampleRange 2 7 40)] :=
  (version_and_source_any_order sampleNewConstraint "a"
    (literalAttr "a"
      (.ObjectVal [("source", .StringVal "x/y"), ("version", .StringVal "1.0")]) 2)
    [("source", .StringVal "x/y"), ("version", .StringVal "1.0")] "1.0" rfl
    (List.Perm.swap _ _ _) rfl).2.2 id (fun _ => List.Perm.refl _)

theorem sourceDiagnostics_of_source (name : String) (attr : Attribute)
    (fields : List (String × Value)) (h1 : attr.Expr.Value.1 = .ObjectVal fields)
    (hsrc : ∃ v, ("source", v) ∈ fields) :
    sourceDiagnostics name attr = [sourceNotSupported name attr.Expr.Range] := by
  have : attr.Expr.Value.1.Type'.HasAttribute "source" = true := by
    rw [h1]; exact (hasAttribute_objectVal fields "source").mpr hsrc
  simp [sourceDiagnostics, this]

/-- C7. Take an attribute whose expression evaluates, without diagnostics, to a
record with a `source` field, whose `version` field is absent or a string
(a valid constraint or not). Whenever the loop visits it, it appends one
declaration, with `Name` the attribute key and `Source` empty, and
diagnostics of which exactly one is a Warning: the "Provider source not
supported" warning, whose detail names the attribute key. In particular a
block with just this attribute decodes to that declaration and those
diagnostics. -/
theorem source_field_warns (P : String → Except String κ) (name : String)
    (attr : Attribute) (fields : List (String × Value))
    (hv : attr.Expr.Value = (.ObjectVal fields, []))
    (hsrc : ∃ v, ("source", v) ∈ fields)
    (hver : ∀ v, ("version", v) ∈ fields → ∃ s, v = .StringVal s) :
    ∃ (rp : RequiredProvider κ) (ds : Diagnostics),
      (∀ (rest : Attributes) (reqs : List (RequiredProvider κ)) (diags : Diagnostics),
        decodeLoop P ((name, attr) :: rest) reqs diags =
          decodeLoop P rest (reqs ++ [rp]) (diags ++ ds)) ∧
      (∀ (rangeOrder : Attributes → Attributes), IsRangeOrder rangeOrder →
        decodeRequiredProvidersBlock P ⟨⟨[(name, attr)], []⟩⟩ rangeOrder =
          .returned [rp] ds) ∧
      rp.Name = name ∧ rp.Source = "" ∧
      ds.filter (fun d => decide (d.Severity = .DiagWarning)) =
        [sourceNotSupported name attr.Expr.Range] ∧
      (sourceNotSupported name attr.Expr.Range).Detail =
        "A source was declared for provider " ++ name ++
          ". Terraform v0.12 does not support the provider source attribute. It will be ignored." := by
  have h1 : attr.Expr.Value.1 = .ObjectVal fields := by rw [hv]
  have h2 : attr.Expr.Value.2 = [] := by rw [hv]
  have ho : attr.Expr.Value.1.Type'.IsObjectType = true := by rw [h1]; rfl
  have hsd := sourceDiagnostics_of_source name attr fields h1 hsrc
  have key : ∃ (rp : RequiredProvider κ) (ds : Diagnostics),
      (∀ (rest : Attributes) (reqs : List (RequiredProvider κ)) (diags : Diagnostics),
        decodeLoop P ((name, attr) :: rest) reqs diags =
          decodeLoop P rest (reqs ++ [rp]) (diags ++ ds)) ∧
      rp.Name = name ∧ rp.Source = "" ∧
      ds.filter (fun d => decide (d.Severity = .DiagWarning)) =
        [sourceNotSupported name attr.Expr.Range] := by
    by_cases hh : attr.Expr.Value.1.Type'.HasAttribute "version" = true
    · have hex : ∃ v, ("version", v) ∈ fields := by
        rw [h1] at hh; exact (hasAttribute_objectVal fields "version").mp hh
      obtain ⟨v, hmem⟩ := hex
      obtain ⟨w, hw⟩ := getAttr_objectVal_some fields "version" v hmem
      obtain ⟨s, rfl⟩ := hver w (getAttr_objectVal_mem fields "version" w hw)
      have hs : (attr.Expr.Value.1.GetAttr "version").bind Value.AsString = some s := by
        rw [h1, hw]; rfl
      cases hP : P s with
      | error e =>
        refine ⟨{ Name := name }, [invalidVersionConstraint attr.Expr.Range,
          sourceNotSupported name attr.Expr.Range], fun rest reqs diags => ?_, rfl, rfl, ?_⟩
        · rw [decodeLoop_object_version P name attr rest reqs diags s ho hh hs, hP, h2, hsd]
          simp
        · simp [List.filter, invalidVersionConstraint, sourceNotSupported]
      | ok c =>
        refine ⟨{ Name := name
                  Requirement := { Required := some c, DeclRange := attr.Range } },
          [sourceNotSupported name attr.Expr.Range], fun rest reqs diags => ?_, rfl, rfl, ?_⟩
        · rw [decodeLoop_object_version P name attr rest reqs diags s ho hh hs, hP, h2, hsd]
          simp
        · simp [List.filter, sourceNotSupported]
    · refine ⟨{ Name := name }, [sourceNotSupported name attr.Expr.Range],
        fun rest reqs diags => ?_, rfl, rfl, ?_⟩
      · rw [decodeLoop_object_plain P name attr rest reqs diags ho (by simpa using hh), h2,
          hsd]
        simp
      · simp [List.filter, sourceNotSupported]
  obtain ⟨rp, ds, hstep, hn, hsource, hwarn⟩ := key
  refine ⟨rp, ds, hstep, fun rangeOrder hro => ?_, hn, hsource, hwarn, rfl⟩
  simpa using decodeBlock_single P name attr rp ds hstep [] rangeOrder hro

/-- C7, at the block `a = { source = "x/y", version = "one point oh" }`. -/
theorem source_field_warns_witness :
    ∃ (rp : RequiredProvider String) (ds : Diagnostics),
      (∀ (rest : Attributes) (reqs : List (RequiredProvider String)) (diags : Diagnostics),
        decodeLoop sampleNewConstraint
            (("a", literalAttr "a" (.ObjectVal [("source", .StringVal "x/y"),
              ("version", .StringVal "one point oh")]) 2) :: rest) reqs diags =
          decodeLoop sampleNewConstraint rest (reqs ++ [rp]) (diags ++ ds)) ∧
      (∀ (rangeOrder : Attributes → Attributes), IsRangeOrder rangeOrder →
        decodeRequiredProvidersBlock sampleNewConstraint
            ⟨⟨[("a", literalAttr "a" (.ObjectVal [("source", .StringVal "x/y"),
              ("version", .StringVal "one point oh")]) 2)], []⟩⟩ rangeOrder =
          .returned [rp] ds) ∧
      rp.Name = "a" ∧ rp.Source = "" ∧
      ds.filter (fun d => decide (d.Severity = .DiagWarning)) =
        [sourceNotSupported "a" (sampleRange 2 7 40)] ∧
      (sourceNotSupported "a" (sampleRange 2 7 40)).Detail =
        "A source was declared for provider " ++ "a" ++
          ". Terraform v0.12 does not support the provider source attribute. It will be ignored." :=
  source_field_warns sampleNewConstraint "a"
    (literalAttr "a" (.ObjectVal [("source", .StringVal "x/y"),
      ("version", .StringVal "one point oh")]) 2)
    [("source", .StringVal "x/y"), ("version", .StringVal "one point oh")] rfl
    ⟨.StringVal "x/y", by simp⟩
    (by
      intro v hv
      simp only [List.mem_cons, Prod.mk.injEq, List.mem_singleton, List.not_mem_nil,
        or_false] at hv
      rcases hv with ⟨h, -⟩ | ⟨-, rfl⟩
      · exact absurd h (by decide)
      · exact ⟨_, rfl⟩)

/-- C8. Take an attribute whose expression evaluates, without diagnostics, to a
record with neither a `version` nor a `source` field. Whenever the loop visits
it, it appends one declaration with `Name` the attribute key and `Requirement`
unset, appends no diagnostic, and goes on with the remaining attributes. In
particular a block with just this attribute decodes to that declaration and no
diagnostic beyond those of `JustAttributes`. -/
theorem object_without_version_or_source (P : String → Except String κ) (name : String)
    (attr : Attribute) (fields : List (String × Value))
    (hv : attr.Expr.Value = (.ObjectVal fields, []))
    (hnov : ∀ v, ("version", v) ∉ fields)
    (hnos : ∀ v, ("source", v) ∉ fields) :
    (∀ (rest : Attributes) (reqs : List (RequiredProvider κ)) (diags : Diagnostics),
      decodeLoop P ((name, attr) :: rest) reqs diags =
        decodeLoop P rest (reqs ++ [{ Name := name, Source := "", Requirement := {} }])
          diags) ∧
    (∀ (bodyDiags : Diagnostics) (rangeOrder : Attributes → Attributes),
      IsRangeOrder rangeOrder →
      decodeRequiredProvidersBlock P ⟨⟨[(name, attr)], bodyDiags⟩⟩ rangeOrder =
        .returned [{ Name := name, Source := "", Requirement := {} }] bodyDiags) := by
  have h1 : attr.Expr.Value.1 = .ObjectVal fields := by rw [hv]
  have h2 : attr.Expr.Value.2 = [] := by rw [hv]
  have ho : attr.Expr.Value.1.Type'.IsObjectType = true := by rw [h1]; rfl
  have hh : attr.Expr.Value.1.Type'.HasAttribute "version" = false := by
    rw [h1, Bool.eq_false_iff, Ne, hasAttribute_objectVal]
    exact fun ⟨v, hm⟩ => hnov v hm
  have hsrc : attr.Expr.Value.1.Type'.HasAttribute "source" = false := by
    rw [h1, Bool.eq_false_iff, Ne, hasAttribute_objectVal]
    exact fun ⟨v, hm⟩ => hnos v hm
  have hstep : ∀ (rest : Attributes) (reqs : List (RequiredProvider κ)) (diags : Diagnostics),
      decodeLoop P ((name, attr) :: rest) reqs diags =
        decodeLoop P rest (reqs ++ [{ Name := name, Source := "", Requirement := {} }])
          diags := by
    intro rest reqs diags
    rw [decodeLoop_object_plain P name attr rest reqs diags ho hh, h2]
    simp [sourceDiagnostics, hsrc]
  refine ⟨hstep, fun bodyDiags rangeOrder hro => ?_⟩
  simp only [decodeRequiredProvidersBlock, Body.JustAttributes,
    rangeOrder_singleton rangeOrder hro, hstep, decodeLoop, List.nil_append]

/-- C8, at the block `a = { alias = "east" }`. -/
theorem object_without_version_or_source_witness :
    decodeRequiredProvidersBlock sampleNewConstraint
        ⟨⟨[("a", literalAttr "a" (.ObjectVal [("alias", .StringVal "east")]) 2)], []⟩⟩ id =
      .returned [{ Name := "a", Source := "", Requirement := { Required := none } }] [] :=
  (object_without_version_or_source sampleNewConstraint "a"
    (literalAttr "a" (.ObjectVal [("alias", .StringVal "east")]) 2)
    [("alias", .StringVal "east")] rfl (by simp) (by simp)).2 [] id
    (fun _ => List.Perm.refl _)

end configs

namespace configs

open hcl cty

variable {κ : Type}

/-- C9. Take the block with the two attributes `a = "not a constraint???"` and
`b = "~>1.0"` (both evaluate without diagnostics, `JustAttributes` reports
nothing), where the constraint parser rejects the first string and accepts the
second as `c`. In whichever order the two attributes are visited,
`decodeRequiredProvidersBlock` returns two declarations, the one named `a`
with no constraint and the one named `b` carrying `c`, and exactly one
diagnostic, the "Invalid version constraint" error located at `a`. -/
theorem rejected_constraint_does_not_stop (P : String → Except String κ)
    (attrA attrB : Attribute) (e : String) (c : κ) (rangeOrder : Attributes → Attributes)
    (hA : attrA.Expr.Value = (.StringVal "not a constraint???", []))
    (hB : attrB.Expr.Value = (.StringVal "~>1.0", []))
    (hpA : P "not a constraint???" = .error e)
    (hpB : P "~>1.0" = .ok c)
    (hro : IsRangeOrder rangeOrder) :
    ∃ reqs : List (RequiredProvider κ),
      decodeRequiredProvidersBlock P ⟨⟨[("a", attrA), ("b", attrB)], []⟩⟩ rangeOrder =
        .returned reqs [invalidVersionConstraint attrA.Expr.Range] ∧
      reqs.Perm
        [{ Name := "a", Requirement := { Required := none, DeclRange := attrA.Range } },
         { Name := "b", Requirement := { Required := some c, DeclRange := attrB.Range } }] := by
  have a1 : attrA.Expr.Value.1 = .StringVal "not a constraint???" := by rw [hA]
  have a2 : attrA.Expr.Value.2 = [] := by rw [hA]
  have b1 : attrB.Expr.Value.1 = .StringVal "~>1.0" := by rw [hB]
  have b2 : attrB.Expr.Value.2 = [] := by rw [hB]
  have hdA : decodeVersionConstraint P attrA =
      ({ Required := none, DeclRange := attrA.Range },
        [invalidVersionConstraint attrA.Expr.Range]) := by
    simp [decodeVersionConstraint, a1, constraintText, hpA]
  have hdB : decodeVersionConstraint P attrB =
      ({ Required := some c, DeclRange := attrB.Range }, []) := by
    simp [decodeVersionConstraint, b1, constraintText, hpB]
  have hstepA := fun rest reqs diags =>
    decodeLoop_primitive P "a" attrA rest reqs diags (by rw [a1]; rfl)
  have hstepB := fun rest reqs diags =>
    decodeLoop_primitive P "b" attrB rest reqs diags (by rw [b1]; rfl)
  rcases perm_pair_cases _ _ _ (hro [("a", attrA), ("b", attrB)]) with hord | hord
  · refine ⟨_, ?_, List.Perm.refl _⟩
    simp only [decodeRequiredProvidersBlock, Body.JustAttributes, hord]
    rw [hstepA, hstepB, hdA, hdB, a2, b2]
    simp [decodeLoop]
  · refine ⟨_, ?_, List.Perm.swap _ _ _⟩
    simp only [decodeRequiredProvidersBlock, Body.JustAttributes, hord]
    rw [hstepB, hstepA, hdA, hdB, a2, b2]
    simp [decodeLoop]

/-- C9, at the block of the claim, visited in the order `b`, `a`. -/
theorem rejected_constraint_does_not_stop_witness :
    ∃ reqs : List (RequiredProvider String),
      decodeRequiredProvidersBlock sampleNewConstraint
          ⟨⟨[("a", literalAttr "a" (.StringVal "not a constraint???") 2),
              ("b", literalAttr "b" (.StringVal "~>1.0") 3)], []⟩⟩ List.reverse =
        .returned reqs [invalidVersionConstraint (sampleRange 2 7 40)] ∧
      reqs.Perm
        [{ Name := "a", Requirement := { Required := none, DeclRange := sampleRange 2 3 40 } },
         { Name := "b"
           Requirement := { Required := some "~>1.0", DeclRange := sampleRange 3 3 40 } }] :=
  rejected_constraint_does_not_stop sampleNewConstraint
    (literalAttr "a" (.StringVal "not a constraint???") 2)
    (literalAttr "b" (.StringVal "~>1.0") 3)
    "Malformed constraint: not a constraint???" "~>1.0" List.reverse rfl rfl rfl rfl
    (fun l => List.reverse_perm l)

/-- C10, amended. The result of `decodeRequiredProvidersBlock` is determined by
the block and the order in which its attributes are visited: two calls that
visit them in the same order return identical results. For two arbitrary
iteration orders, when every attribute's value is primitive or an object whose
`version` field is absent or a string, both calls return, and they return the
same declarations and the same diagnostics up to the order within each
sequence. -/
theorem decode_determined_up_to_order (P : String → Except String κ) (block : Block)
    (order₁ order₂ : Attributes → Attributes)
    (h₁ : IsRangeOrder order₁) (h₂ : IsRangeOrder order₂) :
    (order₁ block.Body.attrs = order₂ block.Body.attrs →
      decodeRequiredProvidersBlock P block order₁ =
        decodeRequiredProvidersBlock P block order₂) ∧
    ((∀ x ∈ block.Body.attrs, loopContinues x.2 = true) →
      ∃ (reqs₁ reqs₂ : List (RequiredProvider κ)) (diags₁ diags₂ : Diagnostics),
        decodeRequiredProvidersBlock P block order₁ = .returned reqs₁ diags₁ ∧
        decodeRequiredProvidersBlock P block order₂ = .returned reqs₂ diags₂ ∧
        reqs₁.Perm reqs₂ ∧ diags₁.Perm diags₂) := by
  constructor
  · intro h
    simp only [decodeRequiredProvidersBlock, Body.JustAttributes, h]
  · intro hshape
    have hperm : (order₁ block.Body.attrs).Perm (order₂ block.Body.attrs) :=
      (h₁ _).trans (h₂ _).symm
    obtain ⟨rs₁, rs₂, ds₁, ds₂, e₁, e₂, pr, pd⟩ :=
      decodeLoop_perm P _ _ hperm (fun x hx => hshape x ((h₁ _).mem_iff.mp hx))
    refine ⟨rs₁, rs₂, block.Body.diags ++ ds₁, block.Body.diags ++ ds₂, ?_, ?_, pr,
      pd.append_left _⟩
    · simp only [decodeRequiredProvidersBlock, Body.JustAttributes]
      rw [decodeLoop_prepend, e₁]
      simp [Outcome.prepend]
    · simp only [decodeRequiredProvidersBlock, Body.JustAttributes]
      rw [decodeLoop_prepend, e₂]
      simp [Outcome.prepend]

/-- C10, amended, at the block `a = "not a constraint???"`,
`b = { source = "x/y" }` and the two iteration orders `a, b` and `b, a`. -/
theorem decode_determined_up_to_order_witness :
    ∃ (reqs₁ reqs₂ : List (RequiredProvider String)) (diags₁ diags₂ : Diagnostics),
      decodeRequiredProvidersBlock sampleNewConstraint twoAttrBlock id =
        .returned reqs₁ diags₁ ∧
      decodeRequiredProvidersBlock sampleNewConstraint twoAttrBlock List.reverse =
        .returned reqs₂ diags₂ ∧
      reqs₁.Perm reqs₂ ∧ diags₁.Perm diags₂ :=
  (decode_determined_up_to_order sampleNewConstraint twoAttrBlock id List.reverse
    (fun _ => List.Perm.refl _) (fun l => List.reverse_perm l)).2 (by decide)

/-- C10 as stated fails: two calls on the block `a = "not a constraint???"`,
`b = { source = "x/y" }` that visit the attributes in the orders `a, b` and
`b, a` (both are iteration orders of the same map) return the declarations and
the diagnostics in different orders. -/
theorem iteration_order_counterexample :
    IsRangeOrder id ∧ IsRangeOrder List.reverse ∧
    decodeRequiredProvidersBlock sampleNewConstraint twoAttrBlock id =
      .returned
        [{ Name := "a", Requirement := { Required := none, DeclRange := sampleRange 2 3 40 } },
         { Name := "b" }]
        [invalidVersionConstraint (sampleRange 2 7 40),
          sourceNotSupported "b" (sampleRange 3 7 40)] ∧
    decodeRequiredProvidersBlock sampleNewConstraint twoAttrBlock List.reverse =
      .returned
        [{ Name := "b" },
         { Name := "a", Requirement := { Required := none, DeclRange := sampleRange 2 3 40 } }]
        [sourceNotSupported "b" (sampleRange 3 7 40),
          invalidVersionConstraint (sampleRange 2 7 40)] ∧
    decodeRequiredProvidersBlock sampleNewConstraint twoAttrBlock id ≠
      decodeRequiredProvidersBlock sampleNewConstraint twoAttrBlock List.reverse := by
  refine ⟨fun _ => List.Perm.refl _, fun l => List.reverse_perm l, rfl, rfl, ?_⟩
  decide

end configs

/-! ## Fail-fast, declaration names, and aborts -/

namespace configs

open hcl cty

variable {κ : Type}

theorem decodeLoop_append_continues (P : String → Except String κ) (pre : Attributes)
    (h : ∀ x ∈ pre, loopContinues x.2 = true) :
    ∃ (rs : List (RequiredProvider κ)) (ds : Diagnostics),
      rs.map (fun rp => rp.Name) = pre.map Prod.fst ∧
      ∀ (tail : Attributes) (reqs : List (RequiredProvider κ)) (diags : Diagnostics),
        decodeLoop P (pre ++ tail) reqs diags = decodeLoop P tail (reqs ++ rs) (diags ++ ds) := by
  induction pre with
  | nil => exact ⟨[], [], rfl, fun tail reqs diags => by simp⟩
  | cons x rest ih =>
    obtain ⟨name, attr⟩ := x
    obtain ⟨rs, ds, hnames, hrest⟩ := ih (fun y hy => h y (List.mem_cons_of_mem _ hy))
    obtain ⟨rp, ds0, hn, -, hstep⟩ :=
      decodeLoop_continues P name attr (h (name, attr) (List.mem_cons_self _ _))
    refine ⟨rp :: rs, attr.Expr.Value.2 ++ ds0 ++ ds, by simp [hn, hnames],
      fun tail reqs diags => ?_⟩
    rw [List.cons_append, hstep, hrest]
    simp

/-- C11, amended. Let the attributes be visited in the order
`pre ++ (name, attr) :: post`, where the value of `attr` is neither primitive
nor an object and every attribute of `pre` has a primitive value or an object
value whose `version` field is absent or a string. Then decoding `pre` alone
returns some declarations `rs` and diagnostics `ds`, and
`decodeRequiredProvidersBlock` returns exactly `rs` followed by the empty
declaration for `name`, and `ds` followed by the diagnostics of evaluating
the expression of `attr` and the one Error diagnostic "Invalid
provider_requirements syntax"; the result is the same whatever follows
`attr`. -/
theorem fail_fast_result (P : String → Except String κ) (block : Block)
    (rangeOrder : Attributes → Attributes) (pre post : Attributes) (name : String)
    (attr : Attribute)
    (hord : rangeOrder block.Body.attrs = pre ++ (name, attr) :: post)
    (hpre : ∀ x ∈ pre, loopContinues x.2 = true)
    (hprim : attr.Expr.Value.1.Type'.IsPrimitiveType = false)
    (hobj : attr.Expr.Value.1.Type'.IsObjectType = false) :
    ∃ (rs : List (RequiredProvider κ)) (ds : Diagnostics),
      decodeLoop P pre [] block.Body.diags = .returned rs ds ∧
      decodeRequiredProvidersBlock P block rangeOrder =
        .returned (rs ++ [{ Name := name, Source := "", Requirement := {} }])
          (ds ++ attr.Expr.Value.2 ++
            [{ Severity := .DiagError
               Summary := "Invalid provider_requirements syntax"
               Detail := "provider_requirements entries must be strings or objects."
               Subject := some attr.Expr.Range }]) ∧
      ∀ post' : Attributes,
        decodeLoop P (pre ++ (name, attr) :: post') [] block.Body.diags =
          decodeRequiredProvidersBlock P block rangeOrder := by
  obtain ⟨rs, ds, -, hrun⟩ := decodeLoop_append_continues P pre hpre
  have hpreOnly : decodeLoop P pre [] block.Body.diags =
      .returned ([] ++ rs) (block.Body.diags ++ ds) := by
    have := hrun [] [] block.Body.diags
    simpa [decodeLoop] using this
  have hany : ∀ post' : Attributes,
      decodeLoop P (pre ++ (name, attr) :: post') [] block.Body.diags =
        .returned (([] ++ rs) ++ [{ Name := name, Source := "", Requirement := {} }])
          ((block.Body.diags ++ ds) ++ attr.Expr.Value.2 ++
            [invalidRequirementsSyntax attr.Expr.Range]) := by
    intro post'
    rw [hrun, decodeLoop_other P name attr post' _ _ hprim hobj]
  have hblock : decodeRequiredProvidersBlock P block rangeOrder =
      .returned (([] ++ rs) ++ [{ Name := name, Source := "", Requirement := {} }])
        ((block.Body.diags ++ ds) ++ attr.Expr.Value.2 ++
          [invalidRequirementsSyntax attr.Expr.Range]) := by
    simp only [decodeRequiredProvidersBlock, Body.JustAttributes, hord]
    exact hany post
  exact ⟨[] ++ rs, block.Body.diags ++ ds, hpreOnly, hblock,
    fun post' => (hany post').trans hblock.symm⟩

/-- C11, amended, at the block `a = "~>1.0"`, `b = ["x"]`, `c = "1.0"`
visited in that order. -/
theorem fail_fast_result_witness :
    ∃ (rs : List (RequiredProvider String)) (ds : Diagnostics),
      decodeLoop sampleNewConstraint [("a", literalAttr "a" (.StringVal "~>1.0") 2)] [] [] =
        .returned rs ds ∧
      decodeRequiredProvidersBlock sampleNewConstraint
          ⟨⟨[("a", literalAttr "a" (.StringVal "~>1.0") 2),
              ("b", literalAttr "b" (.TupleVal [.StringVal "x"]) 3),
              ("c", literalAttr "c" (.StringVal "1.0") 4)], []⟩⟩ id =
        .returned (rs ++ [{ Name := "b", Source := "", Requirement := {} }])
          (ds ++ [] ++
            [{ Severity := .DiagError
               Summary := "Invalid provider_requirements syntax"
               Detail := "provider_requirements entries must be strings or objects."
               Subject := some (sampleRange 3 7 40) }]) ∧
      ∀ post' : Attributes,
        decodeLoop sampleNewConstraint
            ([("a", literalAttr "a" (.StringVal "~>1.0") 2)] ++
              ("b", literalAttr "b" (.TupleVal [.StringVal "x"]) 3) :: post') [] [] =
          decodeRequiredProvidersBlock sampleNewConstraint
            ⟨⟨[("a", literalAttr "a" (.StringVal "~>1.0") 2),
                ("b", literalAttr "b" (.TupleVal [.StringVal "x"]) 3),
                ("c", literalAttr "c" (.StringVal "1.0") 4)], []⟩⟩ id :=
  fail_fast_result sampleNewConstraint
    ⟨⟨[("a", literalAttr "a" (.StringVal "~>1.0") 2),
        ("b", literalAttr "b" (.TupleVal [.StringVal "x"]) 3),
        ("c", literalAttr "c" (.StringVal "1.0") 4)], []⟩⟩ id
    [("a", literalAttr "a" (.StringVal "~>1.0") 2)]
    [("c", literalAttr "c" (.StringVal "1.0") 4)] "b"
    (literalAttr "b" (.TupleVal [.StringVal "x"]) 3) rfl (by decide) rfl rfl

/-- C11 as stated fails: in the block `a = "~>1.0"`, `b = var.x`, `c = "1.0"`
visited in that order, `b` is the first attribute whose value is neither
primitive nor an object. Decoding `a` alone accumulates one declaration and
no diagnostic, yet the block's result carries two diagnostics after that, the
one of evaluating `b` and the syntax error, not the syntax error alone. -/
theorem fail_fast_extra_diagnostic_counterexample :
    decodeLoop sampleNewConstraint [("a", literalAttr "a" (.StringVal "~>1.0") 2)] [] [] =
      .returned
        [{ Name := "a"
           Requirement := { Required := some "~>1.0", DeclRange := sampleRange 2 3 40 } }]
        [] ∧
    decodeRequiredProvidersBlock sampleNewConstraint
        ⟨⟨[("a", literalAttr "a" (.StringVal "~>1.0") 2),
            ("b", failedReferenceAttr "b" 3),
            ("c", literalAttr "c" (.StringVal "1.0") 4)], []⟩⟩ id =
      .returned
        [{ Name := "a"
           Requirement := { Required := some "~>1.0", DeclRange := sampleRange 2 3 40 } },
         { Name := "b" }]
        [variablesNotAllowed (sampleRange 3 7 12),
          invalidRequirementsSyntax (sampleRange 3 7 12)] ∧
    decodeRequiredProvidersBlock sampleNewConstraint
        ⟨⟨[("a", literalAttr "a" (.StringVal "~>1.0") 2),
            ("b", failedReferenceAttr "b" 3),
            ("c", literalAttr "c" (.StringVal "1.0") 4)], []⟩⟩ id ≠
      .returned
        [{ Name := "a"
           Requirement := { Required := some "~>1.0", DeclRange := sampleRange 2 3 40 } },
         { Name := "b" }]
        [invalidRequirementsSyntax (sampleRange 3 7 12)] := by
  refine ⟨rfl, rfl, ?_⟩
  decide

end configs

namespace configs

open hcl cty

variable {κ : Type}

theorem decodeLoop_names (P : String → Except String κ) (attrs : Attributes) :
    ∀ (reqs rs : List (RequiredProvider κ)) (diags ds : Diagnostics),
      decodeLoop P attrs reqs diags = .returned rs ds →
        ∃ (rs' : List (RequiredProvider κ)) (t : List String),
          rs = reqs ++ rs' ∧ attrs.map Prod.fst = rs'.map (fun rp => rp.Name) ++ t := by
  induction attrs with
  | nil =>
    intro reqs rs diags ds h
    simp only [decodeLoop, Outcome.returned.injEq] at h
    exact ⟨[], [], by simp [h.1], rfl⟩
  | cons x rest ih =>
    intro reqs rs diags ds h
    obtain ⟨name, attr⟩ := x
    cases hc : loopContinues attr with
    | true =>
      obtain ⟨rp, ds0, hn, -, hstep⟩ := decodeLoop_continues P name attr hc
      rw [hstep] at h
      obtain ⟨rs', t, h1, h2⟩ := ih _ _ _ _ h
      exact ⟨rp :: rs', t, by simp [h1], by simp [hn, h2]⟩
    | false =>
      rcases decodeLoop_halts P name attr hc with hstop | hpanic
      · rw [hstop] at h
        simp only [Outcome.returned.injEq] at h
        exact ⟨[{ Name := name }], rest.map Prod.fst, h.1.symm, by simp⟩
      · rw [hpanic] at h
        exact absurd h (by simp)

/-- Whenever `decodeRequiredProvidersBlock` returns, the names of the returned
declarations are an initial segment of the attribute keys in the order they
were visited; and when every attribute has a primitive value or an object
value whose `version` field is absent or a string, the call returns and the
names are exactly the keys. -/
theorem declaration_names_follow_keys (P : String → Except String κ) (block : Block)
    (rangeOrder : Attributes → Attributes) :
    (∀ (rs : List (RequiredProvider κ)) (ds : Diagnostics),
      decodeRequiredProvidersBlock P block rangeOrder = .returned rs ds →
        ∃ t : List String,
          (rangeOrder block.Body.attrs).map Prod.fst = rs.map (fun rp => rp.Name) ++ t) ∧
    ((∀ x ∈ rangeOrder block.Body.attrs, loopContinues x.2 = true) →
      ∃ (rs : List (RequiredProvider κ)) (ds : Diagnostics),
        decodeRequiredProvidersBlock P block rangeOrder = .returned rs ds ∧
        rs.map (fun rp => rp.Name) = (rangeOrder block.Body.attrs).map Prod.fst) := by
  constructor
  · intro rs ds h
    simp only [decodeRequiredProvidersBlock, Body.JustAttributes] at h
    obtain ⟨rs', t, h1, h2⟩ := decodeLoop_names P _ _ _ _ _ h
    exact ⟨t, by simpa [h1] using h2⟩
  · intro hall
    obtain ⟨rs, ds, hnames, hrun⟩ := decodeLoop_append_continues P _ hall
    refine ⟨rs, block.Body.diags ++ ds, ?_, hnames⟩
    have := hrun [] [] block.Body.diags
    simpa [decodeRequiredProvidersBlock, Body.JustAttributes, decodeLoop] using this

/-- C12 fails on the code at the block `a = "~>1.0"`, `b = { version = true }`:
every attribute's value is primitive or an object, yet in both visiting
orders the call aborts when it reads the `version` field of `b` as a string,
so no declaration is returned at all, let alone one per attribute. -/
theorem declaration_names_abort :
    (∀ x ∈ [("a", literalAttr "a" (.StringVal "~>1.0") 2),
            ("b", literalAttr "b" (.ObjectVal [("version", .BoolVal true)]) 3)],
      (x.2.Expr.Value.1.Type'.IsPrimitiveType || x.2.Expr.Value.1.Type'.IsObjectType) = true) ∧
    decodeRequiredProvidersBlock sampleNewConstraint
        ⟨⟨[("a", literalAttr "a" (.StringVal "~>1.0") 2),
            ("b", literalAttr "b" (.ObjectVal [("version", .BoolVal true)]) 3)], []⟩⟩ id =
      .panicked ∧
    decodeRequiredProvidersBlock sampleNewConstraint
        ⟨⟨[("a", literalAttr "a" (.StringVal "~>1.0") 2),
            ("b", literalAttr "b" (.ObjectVal [("version", .BoolVal true)]) 3)], []⟩⟩
        List.reverse =
      .panicked := by
  refine ⟨by decide, rfl, rfl⟩

/-- C13 fails on the code: for the blocks `a = { version = 1 }`,
`a = { version = true }`, `a = { version = null }` and
`a = { version = { major = 1 } }` the value is a record with a `version`
field, reading that field as a string fails, and the call aborts instead of
returning declarations and diagnostics. Only a string field is read, as in
`a = { version = "1.0" }`. -/
theorem non_string_version_aborts :
    decodeRequiredProvidersBlock sampleNewConstraint
        ⟨⟨[("a", literalAttr "a" (.ObjectVal [("version", .NumberIntVal 1)]) 2)], []⟩⟩ id =
      .panicked ∧
    decodeRequiredProvidersBlock sampleNewConstraint
        ⟨⟨[("a", literalAttr "a" (.ObjectVal [("version", .BoolVal true)]) 2)], []⟩⟩ id =
      .panicked ∧
    decodeRequiredProvidersBlock sampleNewConstraint
        ⟨⟨[("a", literalAttr "a" (.ObjectVal [("version", .NullVal)]) 2)], []⟩⟩ id =
      .panicked ∧
    decodeRequiredProvidersBlock sampleNewConstraint
        ⟨⟨[("a", literalAttr "a"
              (.ObjectVal [("version", .ObjectVal [("major", .NumberIntVal 1)])]) 2)], []⟩⟩ id =
      .panicked ∧
    decodeRequiredProvidersBlock sampleNewConstraint
        ⟨⟨[("a", literalAttr "a" (.ObjectVal [("version", .StringVal "1.0")]) 2)], []⟩⟩ id =
      .returned
        [{ Name := "a"
           Requirement := { Required := some "1.0", DeclRange := sampleRange 2 3 40 } }]
        [] :=
  ⟨rfl, rfl, rfl, rfl, rfl⟩

end configs
